import Mathlib

/-!
Verification of the docparser library: a shallow embedding of the pattern
matching and field composition engine (Fields maps, PatternGroup,
PatternList, Document, Documents, ErrorList) together with theorems that
settle the specified properties against the code.
-/

namespace Docparser

/-- Value is the dynamic value stored in a Fields map.  The Go source stores
either a plain string or a slice of Fields (the closed variant documented by
the package). -/
inductive Value where
  | vstr : String → Value
  | vlist : List (List (String × Value)) → Value

/-- Fields models the Go type Fields, a map from string keys to dynamic
values.  The association list carries the entries; all observations go
through Fields.lookup, which matches the unordered Go map semantics. -/
abbrev Fields := List (String × Value)

/-- Go map read, m at key k. -/
def Fields.lookup : Fields → String → Option Value
  | [], _ => none
  | (k0, v0) :: f, k => if k0 = k then some v0 else Fields.lookup f k

/-- Go map assignment of v at key k: replaces the binding of k when present,
otherwise appends a new binding. -/
def Fields.insert : Fields → String → Value → Fields
  | [], k, v => [(k, v)]
  | (k0, v0) :: f, k, v =>
      if k0 = k then (k, v) :: f else (k0, v0) :: Fields.insert f k v

/-- Fields.Update, from the Go method Update: copies every binding of other
into f, overriding keys that already exist. -/
def Fields.Update (f other : Fields) : Fields :=
  other.foldl (fun acc p => Fields.insert acc p.1 p.2) f

/-- An association list that represents a genuine map: no duplicate keys. -/
def Fields.NodupKeys (f : Fields) : Prop := (f.map Prod.fst).Nodup

/-- Fields.GetString, from the Go method GetString: empty string when the key
is absent or the stored value is not a string. -/
def Fields.GetString (f : Fields) (key : String) : String :=
  match Fields.lookup f key with
  | some (.vstr s) => s
  | _ => ""

/-- Fields.GetFieldsSlice, from the Go method GetFieldsSlice: empty slice
when the key is absent or the stored value is not a slice of Fields. -/
def Fields.GetFieldsSlice (f : Fields) (key : String) : List Fields :=
  match Fields.lookup f key with
  | some (.vlist l) => l
  | _ => []

/-- The Go type assertion val.(string) without the ok form: none models the
run-time panic raised on a value that is not a string. -/
def valueAsString : Value → Option String
  | .vstr s => some s
  | .vlist _ => none

/-- The inner loop of GetMapSlice: converts one item of the slice to a map
from string to string, asserting every value is a string.  none models the
panic of the unchecked type assertion. -/
def fieldsToStringMap : List (String × Value) → Option (List (String × String))
  | [] => some []
  | (k, v) :: f =>
      match valueAsString v with
      | none => none
      | some s => (fieldsToStringMap f).map (fun r => (k, s) :: r)

/-- The outer loop of GetMapSlice over the items of the stored slice. -/
def mapFieldsList : List (List (String × Value)) → Option (List (List (String × String)))
  | [] => some []
  | item :: rest =>
      match fieldsToStringMap item with
      | none => none
      | some m => (mapFieldsList rest).map (fun r => m :: r)

/-- Fields.GetMapSlice, from the Go method GetMapSlice: empty slice when the
key is absent or the stored value is not a slice of Fields; otherwise each
item is converted to a map from string to string with an unchecked type
assertion on every value.  The result none models the panic of that
assertion. -/
def Fields.GetMapSlice (f : Fields) (key : String) :
    Option (List (List (String × String))) :=
  match Fields.lookup f key with
  | none => some []
  | some (.vstr _) => some []
  | some (.vlist l) => mapFieldsList l

/-- Escaping of one character as done by the Go format verb for quoting, for
the characters that occur in this development. -/
def goEscape (c : Char) : String :=
  if c = '\\' then "\\\\"
  else if c = '"' then "\\\""
  else if c = '\n' then "\\n"
  else if c = '\t' then "\\t"
  else String.singleton c

/-- Go quoting of a string: surrounding double quotes plus escapes. -/
def goQuote (s : String) : String :=
  "\"" ++ String.join (s.data.map goEscape) ++ "\""

/-- Errors produced by the library: NoMatch carries the pattern name and the
content searched; errorf carries a preformatted message as produced by the
Go formatting call; errorList models the ErrorList slice of errors. -/
inductive GoError where
  | noMatch : String → String → GoError
  | errorf : String → GoError
  | errorList : List GoError → GoError

mutual

/-- GoError.message renders an error as its Go Error method does: NoMatch
renders as No match for plus the quoted name, errorf returns its stored
message, and ErrorList joins the messages of its members with the fixed
separator. -/
def GoError.message : GoError → String
  | .noMatch name _ => "No match for " ++ goQuote name
  | .errorf s => s
  | .errorList es => String.intercalate "; " (GoError.messages es)

/-- GoError.messages maps GoError.message over a list of errors, as the
ErrorList Error method does. -/
def GoError.messages : List GoError → List String
  | [] => []
  | e :: es => GoError.message e :: GoError.messages es

end

/-- GoRes models the return of a Go search function: ret carries the Fields
and error pair of a normal return, panicked models a run-time panic. -/
inductive GoRes where
  | ret : Fields → Option GoError → GoRes
  | panicked : GoRes

/-- Regex models a compiled Go regular expression as the oracle interface the
library consumes: names is the SubexpNames slice (entry 0 is always the empty
name of the whole match), find returns the FindStringSubmatch slice when the
regex matches and none otherwise, and split is the Split method with limit
minus one.  The field wf records the guarantee of the Go regexp package that
a successful FindStringSubmatch slice has exactly one entry per subexpression
name. -/
structure Regex where
  names : List String
  find : String → Option (List String)
  split : String → List String
  wf : ∀ s r, find s = some r → r.length = names.length

/-- regexGroups from the source: when the regex matches, pair every
subexpression name from position 1 on with its matched substring and store
the pairs into a fresh Fields map in order (a later group overrides an
earlier one under the same name, exactly as the Go map assignment does).
Returns none when the regex does not match. -/
def regexGroups (re : Regex) (content : String) : Option Fields :=
  match re.find content with
  | none => none
  | some ms =>
      some (((re.names.zip ms).drop 1).foldl
        (fun f p => Fields.insert f p.1 (Value.vstr p.2)) [])

/-- PatternGroup from the source: a named single regex matcher with an
optional Clean transform and an Optional flag. -/
structure PatternGroup where
  Name : String
  Regex : Regex
  Clean : Option (Fields → Fields) := none
  Optional : Bool := false

/-- PatternGroup.Search from the source: extract the groups via regexGroups;
on no match return empty Fields, plus a NoMatch error unless Optional; on a
match apply Clean when configured. -/
def PatternGroup.Search (pg : PatternGroup) (content : String) : GoRes :=
  match regexGroups pg.Regex content with
  | none =>
      if pg.Optional then .ret [] none
      else .ret [] (some (.noMatch pg.Name content))
  | some fields =>
      match pg.Clean with
      | none => .ret fields none
      | some cl => .ret (cl fields) none

/-- PatternList from the source: locate regex, split regex, item regex, an
optional per item transform and an Optional flag. -/
structure PatternList where
  Name : String
  ListRegex : Regex
  SplitRegex : Regex
  ItemRegex : Regex
  CleanItem : Option (Fields → Fields) := none
  Optional : Bool := false

/-- The loop of PatternList.Search over the split item substrings, carrying
the running index exactly as the Go range loop does: empty substrings are
skipped but still advance the index; the first item whose regex fails aborts
with a NoMatch naming the list and that index; item Fields are cleaned when
CleanItem is configured and collected in order. -/
def PatternList.searchItems (pl : PatternList) : List String → Nat → Except GoError (List Fields)
  | [], _ => .ok []
  | t :: ts, i =>
      if t = "" then PatternList.searchItems pl ts (i + 1)
      else
        match regexGroups pl.ItemRegex t with
        | none => .error (.noMatch (pl.Name ++ " - item " ++ toString i) t)
        | some fields =>
            let fields :=
              match pl.CleanItem with
              | none => fields
              | some cl => cl fields
            (PatternList.searchItems pl ts (i + 1)).map (fun rest => fields :: rest)

/-- PatternList.Search from the source.  When the locate regex does not match
it behaves like PatternGroup.Search on no match.  When it matches, the code
reads subexpression name 1 and submatch 1 unconditionally: when the regex has
no subexpression at position 1 this access is out of bounds and the Go code
panics, modeled by the panicked result.  Otherwise the captured list body is
split and the items processed in order. -/
def PatternList.Search (pl : PatternList) (content : String) : GoRes :=
  match pl.ListRegex.find content with
  | none =>
      if pl.Optional then .ret [] none
      else .ret [] (some (.noMatch (pl.Name ++ " - list regex") content))
  | some ms =>
      match pl.ListRegex.names.get? 1, ms.get? 1 with
      | some listName, some listText =>
          match PatternList.searchItems pl (pl.SplitRegex.split listText) 0 with
          | .error e => .ret [] (some e)
          | .ok items => .ret [(listName, .vlist items)] none
      | _, _ => .panicked

mutual

/-- Pattern models the Go Pattern interface with its three implementations:
group, list, and the Document composite. -/
inductive Pattern where
  | group : PatternGroup → Pattern
  | list : PatternList → Pattern
  | doc : Document → Pattern

/-- Document models the Go Document, an ordered sequence of Patterns. -/
inductive Document where
  | nil : Document
  | cons : Pattern → Document → Document

end

mutual

/-- Pattern.Search dispatches on the dynamic type, as the Go interface call
does. -/
def Pattern.Search : Pattern → String → GoRes
  | .group pg, c => pg.Search c
  | .list pl, c => pl.Search c
  | .doc d, c => Document.searchFrom d c []

/-- The loop of Document.Search, carrying the accumulated Fields: each child
is searched in order; a child failure aborts immediately with empty Fields
and the child error unchanged; a child success is merged into the accumulator
via Fields.Update. -/
def Document.searchFrom : Document → String → Fields → GoRes
  | .nil, _, f => .ret f none
  | .cons p d, c, f =>
      match Pattern.Search p c with
      | .panicked => .panicked
      | .ret _ (some e) => .ret [] (some e)
      | .ret pf none => Document.searchFrom d c (Fields.Update f pf)

end

/-- Document.Search from the source: start from an empty Fields map and fold
the children in declared order. -/
def Document.Search (d : Document) (c : String) : GoRes :=
  Document.searchFrom d c []

/-- Builds a Document from a list of Patterns, in order. -/
def Document.ofList : List Pattern → Document
  | [] => .nil
  | p :: ps => .cons p (Document.ofList ps)

/-- The loop of Documents.Search: i is the zero based attempt index, errs the
ErrorList accumulated so far.  The first document that succeeds wins; each
failure is wrapped by the Go formatting call as Document index, colon, space,
message, and appended; when every document failed the empty Fields map and
the accumulated ErrorList are returned. -/
def Documents.searchFrom : List Document → String → Nat → List GoError → GoRes
  | [], _, _, errs => .ret [] (some (.errorList errs))
  | d :: ds, c, i, errs =>
      match Document.Search d c with
      | .panicked => .panicked
      | .ret f none => .ret f none
      | .ret _ (some e) =>
          Documents.searchFrom ds c (i + 1)
            (errs ++ [.errorf ("Document " ++ toString i ++ ": " ++ GoError.message e)])

/-- Documents.Search from the source. -/
def Documents.Search (ds : List Document) (c : String) : GoRes :=
  Documents.searchFrom ds c 0 []

/-!  Specification level helpers, used only to state and prove theorems. -/

/-- Left biased choice on optional values. -/
def optOr : Option Value → Option Value → Option Value
  | some v, _ => some v
  | none, b => b

/-- The value of the last entry with key k in an association list: entries
further to the right take precedence. -/
def lastVal : List (String × Value) → String → Option Value
  | [], _ => none
  | p :: l, k => optOr (lastVal l k) (if p.1 = k then some p.2 else none)

/-- Lookup across a list of Fields maps where later maps take precedence,
the observable meaning of merging in order. -/
def mergeLookup : List Fields → String → Option Value
  | [], _ => none
  | f :: fs, k => optOr (mergeLookup fs k) (Fields.lookup f k)

/-- The errors a Documents search accumulates when every document fails,
starting at attempt index i. -/
def indexedErrors (i : Nat) : List GoError → List GoError
  | [] => []
  | e :: es =>
      .errorf ("Document " ++ toString i ++ ": " ++ GoError.message e)
        :: indexedErrors (i + 1) es

/-- The rendered messages of the accumulated errors, starting at index i. -/
def indexedMessages (i : Nat) : List GoError → List String
  | [] => []
  | e :: es =>
      ("Document " ++ toString i ++ ": " ++ GoError.message e)
        :: indexedMessages (i + 1) es

/-- The Fields map a PatternList builds for one matching item substring. -/
def itemFieldsOf (pl : PatternList) (t : String) : Fields :=
  match regexGroups pl.ItemRegex t with
  | none => []
  | some fields =>
      match pl.CleanItem with
      | none => fields
      | some cl => cl fields

/-- Two successive searches of the same PatternGroup on the same content. -/
def groupSearchTwice (pg : PatternGroup) (c : String) : GoRes × GoRes :=
  (pg.Search c, pg.Search c)

/-- Two successive searches of the same PatternList on the same content. -/
def listSearchTwice (pl : PatternList) (c : String) : GoRes × GoRes :=
  (pl.Search c, pl.Search c)

/-!  General lemmas about the map operations. -/

theorem optOr_none_right (a : Option Value) : optOr a none = a := by
  cases a <;> rfl

theorem optOr_assoc (a b c : Option Value) :
    optOr (optOr a b) c = optOr a (optOr b c) := by
  cases a <;> cases b <;> rfl

theorem lookup_insert (f : Fields) (k k' : String) (v : Value) :
    Fields.lookup (Fields.insert f k v) k'
      = if k = k' then some v else Fields.lookup f k' := by
  induction f with
  | nil => simp [Fields.insert, Fields.lookup]
  | cons p f ih =>
      obtain ⟨k0, v0⟩ := p
      by_cases h0 : k0 = k
      · subst h0
        by_cases h1 : k0 = k'
        · subst h1
          simp [Fields.insert, Fields.lookup]
        · simp [Fields.insert, Fields.lookup, h1]
      · by_cases h1 : k0 = k'
        · subst h1
          have hk : ¬ k = k0 := fun h => h0 h.symm
          simp [Fields.insert, Fields.lookup, h0, hk]
        · simp [Fields.insert, Fields.lookup, h0, h1, ih]

theorem foldl_insert_lookup (l : List (String × Value)) (f0 : Fields) (k : String) :
    Fields.lookup (l.foldl (fun f p => Fields.insert f p.1 p.2) f0) k
      = optOr (lastVal l k) (Fields.lookup f0 k) := by
  induction l generalizing f0 with
  | nil => simp [lastVal, optOr]
  | cons p l ih =>
      simp only [List.foldl_cons, lastVal, ih, lookup_insert]
      rw [optOr_assoc]
      by_cases h : p.1 = k
      · simp [h, optOr]
      · simp [h, optOr]

theorem lastVal_eq_none_of_not_mem (g : Fields) (k : String)
    (h : k ∉ g.map Prod.fst) : lastVal g k = none := by
  induction g with
  | nil => rfl
  | cons p g ih =>
      simp only [List.map_cons, List.mem_cons, not_or] at h
      have h1 : p.1 ≠ k := fun he => h.1 he.symm
      simp [lastVal, ih h.2, h1, optOr]

theorem lastVal_eq_lookup (g : Fields) (k : String) (hg : Fields.NodupKeys g) :
    lastVal g k = Fields.lookup g k := by
  induction g with
  | nil => rfl
  | cons p g ih =>
      simp only [Fields.NodupKeys, List.map_cons, List.nodup_cons] at hg
      by_cases h : p.1 = k
      · subst h
        have : lastVal g p.1 = none := lastVal_eq_none_of_not_mem g p.1 hg.1
        simp [lastVal, Fields.lookup, this, optOr]
      · simp [lastVal, Fields.lookup, h, ih hg.2, optOr_none_right]

theorem update_lookup (f g : Fields) (k : String) (hg : Fields.NodupKeys g) :
    Fields.lookup (Fields.Update f g) k
      = optOr (Fields.lookup g k) (Fields.lookup f k) := by
  unfold Fields.Update
  rw [foldl_insert_lookup, lastVal_eq_lookup g k hg]

theorem foldl_update_lookup (fs : List Fields) (k : String) :
    ∀ f0 : Fields, (∀ g ∈ fs, Fields.NodupKeys g) →
      Fields.lookup (fs.foldl Fields.Update f0) k
        = optOr (mergeLookup fs k) (Fields.lookup f0 k) := by
  induction fs with
  | nil =>
      intro f0 _
      simp [mergeLookup, optOr]
  | cons g fs ih =>
      intro f0 h
      have hg : Fields.NodupKeys g := h g (List.mem_cons_self g fs)
      have hrest : ∀ g0 ∈ fs, Fields.NodupKeys g0 :=
        fun g0 hm => h g0 (List.mem_cons_of_mem g hm)
      simp only [List.foldl_cons, mergeLookup]
      rw [ih (Fields.Update f0 g) hrest, update_lookup f0 g k hg, optOr_assoc]

/-- The non empty substrings of a split, in original order. -/
def nonEmptyItems : List String → List String
  | [] => []
  | t :: ts => if t = "" then nonEmptyItems ts else t :: nonEmptyItems ts

/-- The extraction entries of a regex match: each subexpression from
position 1 on paired with its matched substring, as string values. -/
def groupEntries (names ms : List String) : List (String × Value) :=
  ((names.zip ms).drop 1).map (fun p => (p.1, Value.vstr p.2))

/-!  Loop characterization lemmas. -/

theorem regexGroups_lookup (re : Regex) (c : String) (ms : List String)
    (h : re.find c = some ms) :
    ∃ F, regexGroups re c = some F ∧
      ∀ k, Fields.lookup F k = lastVal (groupEntries re.names ms) k := by
  refine ⟨((re.names.zip ms).drop 1).foldl
    (fun f p => Fields.insert f p.1 (Value.vstr p.2)) [], ?_, ?_⟩
  · simp only [regexGroups, h]
  · intro k
    have hmap : ((re.names.zip ms).drop 1).foldl
        (fun f p => Fields.insert f p.1 (Value.vstr p.2)) []
        = (groupEntries re.names ms).foldl
            (fun f p => Fields.insert f p.1 p.2) [] := by
      rw [groupEntries, List.foldl_map]
    rw [hmap, foldl_insert_lookup]
    simp [Fields.lookup, optOr_none_right]

theorem searchFrom_all_ok (c : String) :
    ∀ (ps : List Pattern) (fs : List Fields) (f0 : Fields),
      ps.length = fs.length →
      (∀ pr ∈ ps.zip fs, Pattern.Search pr.1 c = .ret pr.2 none) →
      Document.searchFrom (Document.ofList ps) c f0
        = .ret (fs.foldl Fields.Update f0) none := by
  intro ps
  induction ps with
  | nil =>
      intro fs f0 hlen _
      cases fs with
      | nil => simp [Document.ofList, Document.searchFrom]
      | cons g gs => simp at hlen
  | cons p ps ih =>
      intro fs f0 hlen hall
      cases fs with
      | nil => simp at hlen
      | cons g gs =>
          have hp : Pattern.Search p c = .ret g none :=
            hall (p, g) (by simp [List.zip_cons_cons])
          have hlen2 : ps.length = gs.length := by
            simpa using hlen
          have hrest : ∀ pr ∈ ps.zip gs, Pattern.Search pr.1 c = .ret pr.2 none :=
            fun pr hm => hall pr (by simp [List.zip_cons_cons, hm])
          simp only [Document.ofList, Document.searchFrom, hp, List.foldl_cons]
          exact ih gs (Fields.Update f0 g) hlen2 hrest

theorem searchFrom_fail (c : String) :
    ∀ (pre : List Pattern) (p : Pattern) (suf : List Pattern)
      (fe : Fields) (e : GoError) (f0 : Fields),
      (∀ q ∈ pre, ∃ fq, Pattern.Search q c = .ret fq none) →
      Pattern.Search p c = .ret fe (some e) →
      Document.searchFrom (Document.ofList (pre ++ p :: suf)) c f0
        = .ret [] (some e) := by
  intro pre
  induction pre with
  | nil =>
      intro p suf fe e f0 _ hp
      simp [Document.ofList, Document.searchFrom, hp]
  | cons q pre ih =>
      intro p suf fe e f0 hpre hp
      obtain ⟨fq, hq⟩ := hpre q (List.mem_cons_self q pre)
      have hrest : ∀ q0 ∈ pre, ∃ fq0, Pattern.Search q0 c = .ret fq0 none :=
        fun q0 hm => hpre q0 (List.mem_cons_of_mem q hm)
      simp only [List.cons_append, Document.ofList, Document.searchFrom, hq]
      exact ih p suf fe e (Fields.Update f0 fq) hrest hp

theorem documentsFrom_first_success (c : String) :
    ∀ (pre : List Document) (d : Document) (suf : List Document)
      (f : Fields) (i : Nat) (errs : List GoError),
      (∀ d0 ∈ pre, ∃ fe e, Document.Search d0 c = .ret fe (some e)) →
      Document.Search d c = .ret f none →
      Documents.searchFrom (pre ++ d :: suf) c i errs = .ret f none := by
  intro pre
  induction pre with
  | nil =>
      intro d suf f i errs _ hd
      simp [Documents.searchFrom, hd]
  | cons d0 pre ih =>
      intro d suf f i errs hpre hd
      obtain ⟨fe, e, he⟩ := hpre d0 (List.mem_cons_self d0 pre)
      have hrest : ∀ d1 ∈ pre, ∃ fe1 e1, Document.Search d1 c = .ret fe1 (some e1) :=
        fun d1 hm => hpre d1 (List.mem_cons_of_mem d0 hm)
      simp only [List.cons_append, Documents.searchFrom, he]
      exact ih d suf f (i + 1) _ hrest hd

theorem documentsFrom_all_fail (c : String) :
    ∀ (ds : List Document) (es : List GoError) (i : Nat) (errs : List GoError),
      ds.length = es.length →
      (∀ pr ∈ ds.zip es, ∃ fe, Document.Search pr.1 c = .ret fe (some pr.2)) →
      Documents.searchFrom ds c i errs
        = .ret [] (some (.errorList (errs ++ indexedErrors i es))) := by
  intro ds
  induction ds with
  | nil =>
      intro es i errs hlen _
      cases es with
      | nil => simp [Documents.searchFrom, indexedErrors]
      | cons e es => simp at hlen
  | cons d ds ih =>
      intro es i errs hlen hall
      cases es with
      | nil => simp at hlen
      | cons e es =>
          obtain ⟨fe, he⟩ := hall (d, e) (by simp [List.zip_cons_cons])
          have hlen2 : ds.length = es.length := by simpa using hlen
          have hrest : ∀ pr ∈ ds.zip es, ∃ fe0, Document.Search pr.1 c = .ret fe0 (some pr.2) :=
            fun pr hm => hall pr (by simp [List.zip_cons_cons, hm])
          simp only [Documents.searchFrom, he]
          rw [ih es (i + 1) _ hlen2 hrest]
          simp only [indexedErrors, List.append_assoc, List.singleton_append]

theorem messages_indexedErrors (es : List GoError) :
    ∀ i, GoError.messages (indexedErrors i es) = indexedMessages i es := by
  induction es with
  | nil => intro i; rfl
  | cons e es ih =>
      intro i
      simp only [indexedErrors, indexedMessages, GoError.messages, ih (i + 1)]
      rfl

theorem searchItems_all_ok (pl : PatternList) :
    ∀ (ts : List String) (i : Nat),
      (∀ t ∈ ts, t ≠ "" → (regexGroups pl.ItemRegex t).isSome) →
      pl.searchItems ts i = .ok ((nonEmptyItems ts).map (itemFieldsOf pl)) := by
  intro ts
  induction ts with
  | nil => intro i _; rfl
  | cons t ts ih =>
      intro i hall
      have hrest : ∀ u ∈ ts, u ≠ "" → (regexGroups pl.ItemRegex u).isSome :=
        fun u hm => hall u (List.mem_cons_of_mem t hm)
      by_cases ht : t = ""
      · simp only [PatternList.searchItems, ht, if_pos rfl, nonEmptyItems]
        exact ih (i + 1) hrest
      · have hsome : (regexGroups pl.ItemRegex t).isSome :=
          hall t (List.mem_cons_self t ts) ht
        obtain ⟨fields, hf⟩ := Option.isSome_iff_exists.mp hsome
        simp only [PatternList.searchItems, if_neg ht, hf, nonEmptyItems,
          List.map_cons, ih (i + 1) hrest, Except.map, itemFieldsOf]

theorem searchItems_cons_empty (pl : PatternList) (ts : List String) (i : Nat) :
    pl.searchItems ("" :: ts) i = pl.searchItems ts (i + 1) := by
  simp [PatternList.searchItems]

theorem searchItems_cons_fail (pl : PatternList) (t : String) (ts : List String)
    (i : Nat) (ht : t ≠ "") (h : regexGroups pl.ItemRegex t = none) :
    pl.searchItems (t :: ts) i
      = .error (.noMatch (pl.Name ++ " - item " ++ toString i) t) := by
  simp [PatternList.searchItems, ht, h]

theorem searchItems_cons_ok (pl : PatternList) (t : String) (ts : List String)
    (i : Nat) (fields : Fields) (ht : t ≠ "")
    (h : regexGroups pl.ItemRegex t = some fields) :
    pl.searchItems (t :: ts) i
      = (pl.searchItems ts (i + 1)).map
          (fun rest =>
            (match pl.CleanItem with
             | none => fields
             | some cl => cl fields) :: rest) := by
  simp [PatternList.searchItems, ht, h]

theorem searchItems_fail (pl : PatternList) :
    ∀ (ts : List String) (i : Nat) (i0 : Nat) (t : String),
      ts[i]? = some t → t ≠ "" → regexGroups pl.ItemRegex t = none →
      (∀ j, j < i → ∀ u, ts[j]? = some u →
        u = "" ∨ (regexGroups pl.ItemRegex u).isSome) →
      pl.searchItems ts i0
        = .error (.noMatch (pl.Name ++ " - item " ++ toString (i0 + i)) t) := by
  intro ts
  induction ts with
  | nil =>
      intro i i0 t hget
      simp at hget
  | cons t0 ts ih =>
      intro i i0 t hget ht hnone hbefore
      cases i with
      | zero =>
          simp only [List.getElem?_cons_zero, Option.some_inj] at hget
          subst hget
          rw [searchItems_cons_fail pl t0 ts i0 ht hnone]
          rfl
      | succ j =>
          simp only [List.getElem?_cons_succ] at hget
          have hb0 : t0 = "" ∨ (regexGroups pl.ItemRegex t0).isSome :=
            hbefore 0 (Nat.succ_pos j) t0 (by simp)
          have hbefore2 : ∀ j0, j0 < j → ∀ u, ts[j0]? = some u →
              u = "" ∨ (regexGroups pl.ItemRegex u).isSome := by
            intro j0 hj0 u hu
            exact hbefore (j0 + 1) (Nat.succ_lt_succ hj0) u (by simpa using hu)
          have harith : i0 + 1 + j = i0 + (j + 1) := by omega
          have hrec := ih j (i0 + 1) t hget ht hnone hbefore2
          rcases hb0 with hb0 | hb0
          · subst hb0
            rw [searchItems_cons_empty, hrec, harith]
          · by_cases ht0 : t0 = ""
            · subst ht0
              rw [searchItems_cons_empty, hrec, harith]
            · rcases Option.isSome_iff_exists.mp hb0 with ⟨fields, hf⟩
              rw [searchItems_cons_ok pl t0 ts i0 fields ht0 hf, hrec, harith]
              rfl

/-!  Conversion helpers for the GetMapSlice characterization. -/

/-- The string stored in a value, with a default for the list case; only
used under a hypothesis that the value is a string. -/
def stringOfValue : Value → String
  | .vstr s => s
  | .vlist _ => ""

theorem fieldsToStringMap_all (item : List (String × Value)) :
    (∀ p ∈ item, ∃ s, p.2 = Value.vstr s) →
    fieldsToStringMap item
      = some (item.map (fun p => (p.1, stringOfValue p.2))) := by
  induction item with
  | nil => intro _; rfl
  | cons p item ih =>
      intro h
      obtain ⟨s, hs⟩ := h p (List.mem_cons_self p item)
      have hrest : ∀ q ∈ item, ∃ s0, q.2 = Value.vstr s0 :=
        fun q hm => h q (List.mem_cons_of_mem p hm)
      obtain ⟨k0, v0⟩ := p
      simp only at hs
      subst hs
      simp [fieldsToStringMap, valueAsString, ih hrest, stringOfValue]

theorem mapFieldsList_all (l : List (List (String × Value))) :
    (∀ item ∈ l, ∀ p ∈ item, ∃ s, p.2 = Value.vstr s) →
    mapFieldsList l
      = some (l.map (fun item => item.map (fun p => (p.1, stringOfValue p.2)))) := by
  induction l with
  | nil => intro _; rfl
  | cons item l ih =>
      intro h
      have hhead := h item (List.mem_cons_self item l)
      have hrest : ∀ it ∈ l, ∀ p ∈ it, ∃ s, p.2 = Value.vstr s :=
        fun it hm => h it (List.mem_cons_of_mem item hm)
      simp [mapFieldsList, fieldsToStringMap_all item hhead, ih hrest]

theorem fieldsToStringMap_eq_none_iff (item : List (String × Value)) :
    fieldsToStringMap item = none ↔ ∃ p ∈ item, ∀ s, p.2 ≠ Value.vstr s := by
  induction item with
  | nil => simp [fieldsToStringMap]
  | cons p item ih =>
      obtain ⟨k0, v0⟩ := p
      cases v0 with
      | vstr s =>
          simp only [fieldsToStringMap, valueAsString, Option.map_eq_none', ih,
            List.exists_mem_cons_iff]
          constructor
          · intro h
            exact Or.inr h
          · rintro (h | h)
            · exact absurd rfl (h s)
            · exact h
      | vlist l =>
          simp only [fieldsToStringMap, valueAsString, List.exists_mem_cons_iff]
          constructor
          · intro _
            exact Or.inl (fun s h => Value.noConfusion h)
          · intro _
            trivial

theorem mapFieldsList_eq_none_iff (l : List (List (String × Value))) :
    mapFieldsList l = none ↔ ∃ item ∈ l, ∃ p ∈ item, ∀ s, p.2 ≠ Value.vstr s := by
  induction l with
  | nil => simp [mapFieldsList]
  | cons item l ih =>
      cases hitem : fieldsToStringMap item with
      | none =>
          simp only [mapFieldsList, hitem, List.exists_mem_cons_iff]
          constructor
          · intro _
            exact Or.inl ((fieldsToStringMap_eq_none_iff item).mp hitem)
          · intro _
            trivial
      | some m =>
          simp only [mapFieldsList, hitem, Option.map_eq_none', ih,
            List.exists_mem_cons_iff]
          constructor
          · intro h
            exact Or.inr h
          · rintro (h | h)
            · have := (fieldsToStringMap_eq_none_iff item).mpr h
              rw [this] at hitem
              cases hitem
            · exact h

/-!  Concrete regexes and patterns, modeled as oracle instances of the Regex
interface, used to instantiate the theorems at concrete inputs. -/

/-- Models a regex with two named groups a and b matching the content c1. -/
def reAB : Regex :=
  ⟨["", "a", "b"],
   fun s => if s = "c1" then some [s, "1", "2"] else none,
   fun s => [s],
   by intro s r h; dsimp only at h; split at h <;> (cases h; try rfl)⟩

/-- Models a regex with one named group b matching the content c1. -/
def reB : Regex :=
  ⟨["", "b"],
   fun s => if s = "c1" then some [s, "3"] else none,
   fun s => [s],
   by intro s r h; dsimp only at h; split at h <;> (cases h; try rfl)⟩

/-- Models a regex with an unnamed first group and a named group x, as in a
pattern of the shape open paren u close paren followed by a named group,
matching the content uv. -/
def reUn : Regex :=
  ⟨["", "", "x"],
   fun s => if s = "uv" then some [s, "u", "v"] else none,
   fun s => [s],
   by intro s r h; dsimp only at h; split at h <;> (cases h; try rfl)⟩

/-- Models a regex that matches nothing. -/
def reNever : Regex :=
  ⟨["", "g"], fun _ => none, fun s => [s],
   by intro s r h; cases h⟩

/-- Models a locate regex whose single named group items captures the whole
content, matching everything. -/
def reLocAll : Regex :=
  ⟨["", "items"], fun s => some [s, s], fun s => [s],
   by intro s r h; cases h; rfl⟩

/-- Splitting a character list on newline characters, keeping empty
segments, as the Go Split method does on a literal newline regex. -/
def splitOnNewlineAux : List Char → List Char → List String
  | [], acc => [String.mk acc.reverse]
  | ch :: cs, acc =>
      if ch = '\n' then String.mk acc.reverse :: splitOnNewlineAux cs []
      else splitOnNewlineAux cs (ch :: acc)

/-- Splitting a string on newline characters. -/
def splitOnNewline (s : String) : List String :=
  splitOnNewlineAux s.data []

/-- Models the literal newline regex used for splitting. -/
def reSplitNL : Regex :=
  ⟨[""],
   fun s => if s.data.any (fun ch => ch = '\n') then some ["\n"] else none,
   fun s => splitOnNewline s,
   by intro s r h; dsimp only at h; split at h <;> (cases h; try rfl)⟩

/-- Matches a dash and a space followed by any characters other than a
newline, returning the captured rest. -/
def matchDash : List Char → Option (List Char)
  | '-' :: ' ' :: rest =>
      if rest.any (fun ch => ch = '\n') then none else some rest
  | _ => none

/-- Models the item regex dash space followed by a named group v capturing
the rest of a single line. -/
def reDashV : Regex :=
  ⟨["", "v"],
   fun s =>
     match matchDash s.data with
     | none => none
     | some rest => some [s, String.mk rest],
   fun s => [s],
   by intro s r h; dsimp only at h; split at h <;> (cases h; try rfl)⟩

/-- Models an item regex with named group v capturing the whole item,
matching everything. -/
def reAnyV : Regex :=
  ⟨["", "v"], fun s => some [s, s], fun s => [s],
   by intro s r h; cases h; rfl⟩

/-- Models a locate regex whose first group is unnamed and whose single named
group x is the second group, matching the content AB. -/
def reLocBad : Regex :=
  ⟨["", "", "x"],
   fun s => if s = "AB" then some [s, "A", "B"] else none,
   fun s => [s],
   by intro s r h; dsimp only at h; split at h <;> (cases h; try rfl)⟩

/-- Models a regex with no capture group at all: the subexpression names
slice holds only the empty name of the whole match. -/
def reWholeOnly : Regex :=
  ⟨[""], fun s => some [s], fun s => [s],
   by intro s r h; cases h; rfl⟩

/-- Recognizes the leading characters of a Name field. -/
def hasNameHeadA : List Char → Bool
  | 'N' :: 'a' :: 'm' :: 'e' :: ':' :: ' ' :: _ => true
  | _ => false

/-- Models a group regex for a Name field that requires its leading text. -/
def reNameA : Regex :=
  ⟨["", "name"],
   fun s => if hasNameHeadA s.data then some [s, "bob"] else none,
   fun s => [s],
   by intro s r h; dsimp only at h; split at h <;> (cases h; try rfl)⟩

/-- Recognizes the leading characters of an alternative Name field. -/
def hasNameHeadB : List Char → Bool
  | 'M' :: 'y' :: ' ' :: 'N' :: 'a' :: 'm' :: 'e' :: ':' :: ' ' :: _ => true
  | _ => false

/-- Models a group regex for an alternative Name field format. -/
def reNameB : Regex :=
  ⟨["", "name"],
   fun s => if hasNameHeadB s.data then some [s, "josh"] else none,
   fun s => [s],
   by intro s r h; dsimp only at h; split at h <;> (cases h; try rfl)⟩

def pgA : PatternGroup := ⟨"A", reAB, none, false⟩

def pgB : PatternGroup := ⟨"B", reB, none, false⟩

def pgC3 : PatternGroup := ⟨"G3", reUn, none, false⟩

def pgW6opt : PatternGroup := ⟨"O", reNever, none, true⟩

def pgW6req : PatternGroup := ⟨"R", reNever, none, false⟩

def pgNameA : PatternGroup := ⟨"Name", reNameA, none, false⟩

def pgNameB : PatternGroup := ⟨"Name", reNameB, none, false⟩

def plW4 : PatternList := ⟨"Languages", reLocAll, reSplitNL, reDashV, none, false⟩

def plW5 : PatternList := ⟨"L", reLocAll, reSplitNL, reDashV, none, false⟩

def plC4bad : PatternList := ⟨"Bad", reLocBad, reSplitNL, reAnyV, none, false⟩

def plC10 : PatternList := ⟨"Z", reWholeOnly, reSplitNL, reDashV, none, false⟩

def docA : Document := Document.ofList [Pattern.group pgNameA]

def docB : Document := Document.ofList [Pattern.group pgNameB]

/-!  Claim theorems. -/

/-- C1: Document.Search starts from an empty Fields map and calls each child
pattern in declared order; the first child failure aborts immediately,
returning that child error unchanged together with an empty Fields map (no
partial merge); when all children succeed, the result is the fold of the
child Fields maps via Update, and on that merge a later child value
overwrites an earlier one on key collision (the lookup of any key equals the
later wins merge of the child maps). -/
theorem document_search_spec (c : String) :
    (∀ (pre : List Pattern) (p : Pattern) (suf : List Pattern)
        (fe : Fields) (e : GoError),
      (∀ q ∈ pre, ∃ fq, Pattern.Search q c = .ret fq none) →
      Pattern.Search p c = .ret fe (some e) →
      Document.Search (Document.ofList (pre ++ p :: suf)) c = .ret [] (some e))
    ∧
    (∀ (ps : List Pattern) (fs : List Fields),
      ps.length = fs.length →
      (∀ pr ∈ ps.zip fs, Pattern.Search pr.1 c = .ret pr.2 none) →
      Document.Search (Document.ofList ps) c = .ret (fs.foldl Fields.Update []) none
      ∧ ((∀ g ∈ fs, Fields.NodupKeys g) →
          ∀ k, Fields.lookup (fs.foldl Fields.Update []) k = mergeLookup fs k)) := by
  constructor
  · intro pre p suf fe e hpre hp
    exact searchFrom_fail c pre p suf fe e [] hpre hp
  · intro ps fs hlen hall
    refine ⟨searchFrom_all_ok c ps fs [] hlen hall, ?_⟩
    intro hnodup k
    rw [foldl_update_lookup fs k [] hnodup]
    simp [Fields.lookup, optOr_none_right]

/-- C1 witness: a document of two groups over the content c1; the second
group overwrites the key b of the first; the merged map and the later wins
lookup agree. -/
theorem document_search_spec_witness :
    Document.Search (Document.ofList [Pattern.group pgA, Pattern.group pgB]) "c1"
      = .ret [("a", Value.vstr "1"), ("b", Value.vstr "3")] none
    ∧ Fields.lookup [("a", Value.vstr "1"), ("b", Value.vstr "3")] "b"
      = mergeLookup [[("a", Value.vstr "1"), ("b", Value.vstr "2")],
          [("b", Value.vstr "3")]] "b" := by
  have h := (document_search_spec "c1").2
    [Pattern.group pgA, Pattern.group pgB]
    [[("a", Value.vstr "1"), ("b", Value.vstr "2")], [("b", Value.vstr "3")]]
    rfl
    (by intro pr hm; fin_cases hm <;> rfl)
  exact ⟨h.1, h.2 (by intro g hm; fin_cases hm <;> (unfold Fields.NodupKeys; decide)) "b"⟩

/-- C2: Documents.Search returns the Fields map of the first document that
succeeds, discarding prior failures; if all documents fail, it returns an
empty Fields map and a single composite ErrorList whose message is each
document error message prefixed with the word Document, the 0 based attempt
index and a colon, joined in attempt order by the separator of a semicolon
and a space. -/
theorem documents_search_spec (c : String) :
    (∀ (pre : List Document) (d : Document) (suf : List Document) (f : Fields),
      (∀ d0 ∈ pre, ∃ fe e, Document.Search d0 c = .ret fe (some e)) →
      Document.Search d c = .ret f none →
      Documents.Search (pre ++ d :: suf) c = .ret f none)
    ∧
    (∀ (ds : List Document) (es : List GoError),
      ds.length = es.length →
      (∀ pr ∈ ds.zip es, ∃ fe, Document.Search pr.1 c = .ret fe (some pr.2)) →
      Documents.Search ds c = .ret [] (some (.errorList (indexedErrors 0 es)))
      ∧ GoError.message (.errorList (indexedErrors 0 es))
          = String.intercalate "; " (indexedMessages 0 es)) := by
  constructor
  · intro pre d suf f hpre hd
    exact documentsFrom_first_success c pre d suf f 0 [] hpre hd
  · intro ds es hlen hall
    constructor
    · have h := documentsFrom_all_fail c ds es 0 [] hlen hall
      simpa using h
    · simp [GoError.message, messages_indexedErrors]

/-- C2 witness: two documents that both fail on the content nope produce the
exact index labeled composite message of the test suite. -/
theorem documents_search_spec_witness :
    Documents.Search [docA, docB] "nope"
      = .ret [] (some (.errorList (indexedErrors 0
          [.noMatch "Name" "nope", .noMatch "Name" "nope"])))
    ∧ GoError.message (.errorList (indexedErrors 0
          [.noMatch "Name" "nope", .noMatch "Name" "nope"]))
      = "Document 0: No match for \"Name\"; Document 1: No match for \"Name\"" := by
  have h := (documents_search_spec "nope").2 [docA, docB]
    [.noMatch "Name" "nope", .noMatch "Name" "nope"]
    rfl
    (by intro pr hm; fin_cases hm <;> exact ⟨[], rfl⟩)
  refine ⟨h.1, ?_⟩
  rw [h.2]
  rfl

/-- C3 counterexample: the claim states that unnamed capture groups
contribute no key.  On the group matcher pgC3, whose regex has an unnamed
first group (subexpression name empty) and one named group x, the search
result contains the key of the empty string carrying the unnamed group
match, so the map does not have exactly one key per named group. -/
theorem group_unnamed_counterexample :
    pgC3.Regex.names = ["", "", "x"]
    ∧ PatternGroup.Search pgC3 "uv"
        = .ret [("", Value.vstr "u"), ("x", Value.vstr "v")] none
    ∧ Fields.lookup [("", Value.vstr "u"), ("x", Value.vstr "v")] ""
        = some (Value.vstr "u") :=
  ⟨rfl, rfl, rfl⟩

/-- C3 amended: for every PatternGroup without a Clean transform whose regex
matches, Search succeeds with the map obtained by storing, for every capture
group from position 1 on (named or not), the group name as key and the
matched substring as value; the lookup of any key is the value of the last
capture group carrying that name.  Unnamed groups all contribute under the
empty string key (the last one wins); a regex with no capture group beyond
the whole match yields an empty map, with no error either way. -/
theorem group_search_match (pg : PatternGroup) (c : String) (ms : List String)
    (hfind : pg.Regex.find c = some ms) (hclean : pg.Clean = none) :
    PatternGroup.Search pg c = .ret ((regexGroups pg.Regex c).getD []) none
    ∧ ∀ k, Fields.lookup ((regexGroups pg.Regex c).getD []) k
        = lastVal (groupEntries pg.Regex.names ms) k := by
  obtain ⟨F, hF, hlook⟩ := regexGroups_lookup pg.Regex c ms hfind
  constructor
  · simp [PatternGroup.Search, hF, hclean]
  · intro k
    rw [hF]
    exact hlook k

/-- C3 witness: the amended theorem instantiated on the two named group
matcher pgA and the content c1. -/
theorem group_search_match_witness :
    PatternGroup.Search pgA "c1" = .ret ((regexGroups pgA.Regex "c1").getD []) none
    ∧ Fields.lookup ((regexGroups pgA.Regex "c1").getD []) "b"
        = lastVal (groupEntries pgA.Regex.names ["c1", "1", "2"]) "b" := by
  have h := group_search_match pgA "c1" ["c1", "1", "2"] rfl rfl
  exact ⟨h.1, h.2 "b"⟩

/-- C4 counterexample: the claim asserts, for any locate regex with exactly
one named capture group, that the single result key equals that group name.
On plC4bad the single named group x is the second capture group; the code
reads subexpression name 1 unconditionally, so the result key is the empty
name of the unnamed first group, not x. -/
theorem list_search_key_counterexample :
    plC4bad.ListRegex.names = ["", "", "x"]
    ∧ PatternList.Search plC4bad "AB"
        = .ret [("", Value.vlist [[("v", Value.vstr "A")]])] none
    ∧ Fields.lookup [("", Value.vlist [[("v", Value.vstr "A")]])] "x" = none :=
  ⟨rfl, rfl, rfl⟩

/-- C4 amended: for every PatternList whose locate regex matches and whose
single named capture group is its first capture group, when every non empty
split item matches the item regex, Search returns a map with exactly one
key, the name of that group, mapped to the ordered list of per item Fields
maps, one per non empty item substring in original order; empty item
substrings are skipped. -/
theorem list_search_success (pl : PatternList) (c : String) (ms : List String)
    (listName listText : String)
    (hfind : pl.ListRegex.find c = some ms)
    (hname : pl.ListRegex.names.get? 1 = some listName)
    (htext : ms.get? 1 = some listText)
    (_hnamed : listName ≠ "")
    (_honly : ∀ n ∈ pl.ListRegex.names.drop 2, n = "")
    (hitems : ∀ t ∈ pl.SplitRegex.split listText, t ≠ "" →
        (regexGroups pl.ItemRegex t).isSome) :
    PatternList.Search pl c
      = .ret [(listName, Value.vlist
          ((nonEmptyItems (pl.SplitRegex.split listText)).map (itemFieldsOf pl)))]
          none := by
  simp only [PatternList.Search, hfind, hname, htext]
  rw [searchItems_all_ok pl (pl.SplitRegex.split listText) 0 hitems]

/-- C4 witness: the list matcher plW4 on the body of dash a, dash b, dash c
with a trailing newline, split on newlines, yields the single key items with
three per item maps binding v to a, b and c in order; the trailing empty
split segment contributes nothing. -/
theorem list_search_success_witness :
    PatternList.Search plW4 "- a\n- b\n- c\n"
      = .ret [("items", Value.vlist
          [[("v", Value.vstr "a")], [("v", Value.vstr "b")], [("v", Value.vstr "c")]])]
          none := by
  have h := list_search_success plW4 "- a\n- b\n- c\n"
    ["- a\n- b\n- c\n", "- a\n- b\n- c\n"] "items" "- a\n- b\n- c\n"
    rfl rfl rfl (by decide)
    (by
      intro n hn
      rw [show plW4.ListRegex.names.drop 2 = ([] : List String) from rfl] at hn
      cases hn)
    (by
      intro t ht hne
      rw [show plW4.SplitRegex.split "- a\n- b\n- c\n" = ["- a", "- b", "- c", ""]
        from rfl] at ht
      fin_cases ht
      · rfl
      · rfl
      · rfl
      · exact absurd rfl hne)
  exact h

/-- C5 counterexample: the claim says the NoMatch error carries the failing
item 0 based index among processed items, where empty split substrings do
not count as items.  On a list body that splits into a non empty item, an
empty substring and the failing item bad, the failing item index among the
non empty items is 1, yet the code reports item 2: the range loop index over
all split substrings, which the skipped empty substring still advances. -/
theorem list_search_item_index_counterexample :
    nonEmptyItems (plW5.SplitRegex.split "- a\n\nbad") = ["- a", "bad"]
    ∧ (nonEmptyItems (plW5.SplitRegex.split "- a\n\nbad"))[1]? = some "bad"
    ∧ PatternList.Search plW5 "- a\n\nbad"
        = .ret [] (some (.noMatch "L - item 2" "bad"))
    ∧ ("L - item 2" : String) ≠ "L - item 1" :=
  ⟨rfl, rfl, rfl, by decide⟩

/-- C5 amended: once the locate regex of a PatternList has matched (and its
first subexpression is readable), if the first failing non empty item
substring sits at position i of the split sequence (empty substrings are
skipped but still advance the index, exactly as the Go range loop index
does), Search returns an empty Fields map together with a NoMatch error
whose name is the matcher name followed by the item marker and the 0 based
index i, and whose content is that item substring: all or nothing, no
partial item list.  The Optional flag of the list is not consulted on this
path: the theorem holds for any value of pl.Optional. -/
theorem list_search_item_failure (pl : PatternList) (c : String) (ms : List String)
    (listName listText : String) (i : Nat) (t : String)
    (hfind : pl.ListRegex.find c = some ms)
    (hname : pl.ListRegex.names.get? 1 = some listName)
    (htext : ms.get? 1 = some listText)
    (hget : (pl.SplitRegex.split listText)[i]? = some t)
    (ht : t ≠ "")
    (hfail : regexGroups pl.ItemRegex t = none)
    (hbefore : ∀ j, j < i → ∀ u, (pl.SplitRegex.split listText)[j]? = some u →
        u = "" ∨ (regexGroups pl.ItemRegex u).isSome) :
    PatternList.Search pl c
      = .ret [] (some (.noMatch (pl.Name ++ " - item " ++ toString i) t)) := by
  simp only [PatternList.Search, hfind, hname, htext]
  rw [searchItems_fail pl (pl.SplitRegex.split listText) i 0 t hget ht hfail hbefore]
  rw [Nat.zero_add]

/-- C5 witness: on the content with items dash a and then bad, the second
split substring does not match the item regex, and the search fails with the
NoMatch naming item 1, for a list whose Optional flag is false. -/
theorem list_search_item_failure_witness :
    PatternList.Search plW5 "- a\nbad"
      = .ret [] (some (.noMatch "L - item 1" "bad")) := by
  have h := list_search_item_failure plW5 "- a\nbad" ["- a\nbad", "- a\nbad"]
    "items" "- a\nbad" 1 "bad"
    rfl rfl rfl rfl (by decide) rfl
    (by
      intro j hj u hu
      have hj0 : j = 0 := by omega
      subst hj0
      rw [show plW5.SplitRegex.split "- a\nbad" = ["- a", "bad"] from rfl] at hu
      simp only [List.getElem?_cons_zero, Option.some_inj] at hu
      subst hu
      right
      rfl)
  exact h

/-- C6: a PatternGroup whose regex does not match returns an empty Fields
map with no error when Optional is set, and an empty Fields map with a
NoMatch error carrying the matcher name and the searched content when
Optional is not set. -/
theorem group_search_no_match (pg : PatternGroup) (c : String)
    (h : pg.Regex.find c = none) :
    PatternGroup.Search pg c
      = if pg.Optional then .ret [] none
        else .ret [] (some (.noMatch pg.Name c)) := by
  simp [PatternGroup.Search, regexGroups, h]

/-- C6 witness: the optional group returns empty Fields and no error, the
required group returns the NoMatch carrying its name and the content. -/
theorem group_search_no_match_witness :
    PatternGroup.Search pgW6opt "z" = .ret [] none
    ∧ PatternGroup.Search pgW6req "z" = .ret [] (some (.noMatch "R" "z")) := by
  constructor
  · exact group_search_no_match pgW6opt "z" rfl
  · exact group_search_no_match pgW6req "z" rfl

/-- C7 counterexample: the claim asserts that when the stored value is a
list of Fields the list accessor returns the stored value.  GetMapSlice on
a stored list whose item carries a list valued entry does not return the
stored value: the unchecked string assertion panics (modeled by none). -/
theorem accessors_stored_value_counterexample :
    Fields.lookup [("k", Value.vlist [[("a", Value.vlist [])]])] "k"
      = some (Value.vlist [[("a", Value.vlist [])]])
    ∧ Fields.GetMapSlice [("k", Value.vlist [[("a", Value.vlist [])]])] "k" = none :=
  ⟨rfl, rfl⟩

/-- C7 amended: GetString returns the empty string on an absent key or a
list valued entry and returns the stored string otherwise; GetMapSlice
returns the empty slice on an absent key or a string valued entry, and when
the stored value is a list of Fields whose items hold only string values it
returns that list with every item converted to a map from string to string
(keys and string values preserved, in order).  On a stored list holding a
non string value GetMapSlice does not return: the Go code panics. -/
theorem accessors_spec (f : Fields) (k : String) :
    (Fields.lookup f k = none →
      Fields.GetString f k = "" ∧ Fields.GetMapSlice f k = some [])
    ∧ (∀ l, Fields.lookup f k = some (Value.vlist l) → Fields.GetString f k = "")
    ∧ (∀ s, Fields.lookup f k = some (Value.vstr s) →
        Fields.GetString f k = s ∧ Fields.GetMapSlice f k = some [])
    ∧ (∀ l, Fields.lookup f k = some (Value.vlist l) →
        (∀ item ∈ l, ∀ p ∈ item, ∃ s, p.2 = Value.vstr s) →
        Fields.GetMapSlice f k
          = some (l.map (fun item => item.map (fun p => (p.1, stringOfValue p.2))))) := by
  refine ⟨?_, ?_, ?_, ?_⟩
  · intro h
    constructor
    · simp [Fields.GetString, h]
    · simp [Fields.GetMapSlice, h]
  · intro l h
    simp [Fields.GetString, h]
  · intro s h
    constructor
    · simp [Fields.GetString, h]
    · simp [Fields.GetMapSlice, h]
  · intro l h hall
    simp [Fields.GetMapSlice, h, mapFieldsList_all l hall]

/-- C7 witness: the amended theorem applied to a map storing a string under
s and a one item list under l. -/
theorem accessors_spec_witness :
    Fields.GetString [("s", Value.vstr "hi")] "s" = "hi"
    ∧ Fields.GetMapSlice [("l", Value.vlist [[("a", Value.vstr "1")]])] "l"
        = some [[("a", "1")]] := by
  constructor
  · exact ((accessors_spec [("s", Value.vstr "hi")] "s").2.2.1 "hi" rfl).1
  · exact (accessors_spec [("l", Value.vlist [[("a", Value.vstr "1")]])] "l").2.2.2
      [[("a", Value.vstr "1")]] rfl
      (by
        intro item hi p hp
        fin_cases hi
        fin_cases hp
        exact ⟨"1", rfl⟩)

/-- C8 counterexample: the claim asserts the accessors never panic, even on
a list of Fields whose items contain non string values.  GetMapSlice on an
item holding one string value and one list value hits the unchecked type
assertion and panics (modeled by none): there is no defined result. -/
theorem accessors_never_panic_counterexample :
    Fields.GetMapSlice
      [("x", Value.vlist
        [[("b", Value.vstr "ok"), ("d", Value.vlist [[("e", Value.vstr "f")]])]])]
      "x" = none :=
  rfl

/-- C8 amended: GetString always returns a defined string (the empty string
or the stored string) and GetFieldsSlice always returns a defined slice (the
empty slice on an absent key or a string valued entry, the stored list
otherwise): neither can panic.  GetMapSlice panics exactly when the stored
value is a list of Fields one of whose items holds a non string value. -/
theorem accessors_totality (f : Fields) (k : String) :
    (Fields.GetString f k = ""
      ∨ ∃ s, Fields.lookup f k = some (Value.vstr s) ∧ Fields.GetString f k = s)
    ∧ (Fields.lookup f k = none → Fields.GetFieldsSlice f k = [])
    ∧ (∀ s, Fields.lookup f k = some (Value.vstr s) → Fields.GetFieldsSlice f k = [])
    ∧ (∀ l, Fields.lookup f k = some (Value.vlist l) → Fields.GetFieldsSlice f k = l)
    ∧ (Fields.GetMapSlice f k = none ↔
        ∃ l, Fields.lookup f k = some (Value.vlist l)
          ∧ ∃ item ∈ l, ∃ p ∈ item, ∀ s, p.2 ≠ Value.vstr s) := by
  refine ⟨?_, ?_, ?_, ?_, ?_⟩
  · cases h : Fields.lookup f k with
    | none => exact Or.inl (by simp [Fields.GetString, h])
    | some v =>
        cases v with
        | vstr s => exact Or.inr ⟨s, rfl, by simp [Fields.GetString, h]⟩
        | vlist l => exact Or.inl (by simp [Fields.GetString, h])
  · intro h
    simp [Fields.GetFieldsSlice, h]
  · intro s h
    simp [Fields.GetFieldsSlice, h]
  · intro l h
    simp [Fields.GetFieldsSlice, h]
  · cases h : Fields.lookup f k with
    | none => simp [Fields.GetMapSlice, h]
    | some v =>
        cases v with
        | vstr s => simp [Fields.GetMapSlice, h]
        | vlist l =>
            simp only [Fields.GetMapSlice, h, mapFieldsList_eq_none_iff,
              Option.some_inj]
            constructor
            · intro hl
              exact ⟨l, rfl, hl⟩
            · rintro ⟨l0, hl0, hmem⟩
              cases hl0
              exact hmem

/-- C8 witness: the amended theorem applied to a map storing a string under
x (the list accessor falls back to empty) and to a map storing a list with
a list valued item entry (GetMapSlice panics). -/
theorem accessors_totality_witness :
    Fields.GetFieldsSlice [("x", Value.vstr "s")] "x" = []
    ∧ Fields.GetMapSlice [("y", Value.vlist [[("a", Value.vlist [])]])] "y" = none := by
  constructor
  · exact (accessors_totality [("x", Value.vstr "s")] "x").2.2.1 "s" rfl
  · exact (accessors_totality [("y", Value.vlist [[("a", Value.vlist [])]])] "y").2.2.2.2.mpr
      ⟨[[("a", Value.vlist [])]], rfl,
        [("a", Value.vlist [])], List.mem_cons_self _ _,
        ("a", Value.vlist []), List.mem_cons_self _ _,
        fun s h => Value.noConfusion h⟩

/-- C9: for a fixed configuration and content, two successive searches of
the same PatternGroup, and of the same PatternList, return identical
results.  The embedding of both Search functions is a pure function of the
configuration and the content, mirroring the Go code, which reads but never
writes its receiver and keeps no package level state; the Clean transforms
are modeled as pure functions, matching the deterministic or absent
transform hypothesis of the claim. -/
theorem search_deterministic (pg : PatternGroup) (pl : PatternList) (c : String) :
    (groupSearchTwice pg c).1 = (groupSearchTwice pg c).2
    ∧ (listSearchTwice pl c).1 = (listSearchTwice pl c).2 :=
  ⟨rfl, rfl⟩

/-- C10: a PatternList whose locate regex always matches but has no capture
group at all (its subexpression names slice is the single empty name of the
whole match) drives PatternList.Search into the unconditional read of
subexpression 1, which is out of bounds: the search panics instead of
returning a NoMatch error. -/
theorem list_search_no_group_panics :
    plC10.ListRegex.names = [""]
    ∧ (plC10.ListRegex.find "anything").isSome = true
    ∧ PatternList.Search plC10 "anything" = .panicked :=
  ⟨rfl, rfl, rfl⟩

end Docparser
